import Mathlib

/-!
Shallow embedding of the GC root- and handle-scanning orchestration layer
(`src/coreclr/gc/gcscan.cpp`).  Pure orchestration code is translated
directly from the source; the handle-table operations (`Ref_*`) and the
execution-engine collaborators (`GCToEEInterface::*`) live outside the
provided sources, so they are modelled from the specification text, each
marked with a doc comment starting `Modelled from the spec:`.
-/

namespace GCScan

/-! ## ValidityCounter (m_GcStructuresInvalidCnt) -/

/-- Initial value of `m_GcStructuresInvalidCnt`
(`VOLATILE(int32_t) GCScan::m_GcStructuresInvalidCnt = 1;`). -/
def m_GcStructuresInvalidCnt_init : Int := 1

/-- `GCScan::GetGcRuntimeStructuresValid`: returns whether the counter is
exactly zero. -/
def GetGcRuntimeStructuresValid (cnt : Int) : Bool := cnt == 0

/-- Assertion checked inside `GetGcRuntimeStructuresValid`
(`_ASSERTE ((int32_t)m_GcStructuresInvalidCnt >= 0)`). -/
def GetGcRuntimeStructuresValid_assertOk (cnt : Int) : Bool := 0 ≤ cnt

/-- `GCScan::GcRuntimeStructuresValid (BOOL bValid)`: counter update.
`bValid = false` performs `Interlocked::Increment`, `bValid = true`
performs `Interlocked::Decrement`. -/
def GcRuntimeStructuresValid (bValid : Bool) (cnt : Int) : Int :=
  if !bValid then cnt + 1 else cnt - 1

/-- The `_ASSERTE` executed by `GcRuntimeStructuresValid` on the value
returned by the interlocked operation: `result > 0` after an increment,
`result >= 0` after a decrement. -/
def GcRuntimeStructuresValid_assertOk (bValid : Bool) (cnt : Int) : Bool :=
  if !bValid then 0 < cnt + 1 else 0 ≤ cnt - 1

/-- Run a sequence of `GcRuntimeStructuresValid` calls (each list element is
the `bValid` argument) from a starting counter value, left to right. -/
def runOps (ops : List Bool) (cnt : Int) : Int :=
  match ops with
  | [] => cnt
  | b :: rest => runOps rest (GcRuntimeStructuresValid b cnt)

/-- All counter values reached while running `ops` from `cnt`, the starting
value included. -/
def runStates (ops : List Bool) (cnt : Int) : List Int :=
  match ops with
  | [] => [cnt]
  | b :: rest => cnt :: runStates rest (GcRuntimeStructuresValid b cnt)

/-- `true` when every `_ASSERTE` along the run of `ops` from `cnt` holds,
i.e. the trace is a balanced use of the counter. -/
def runOk (ops : List Bool) (cnt : Int) : Bool :=
  match ops with
  | [] => true
  | b :: rest =>
      GcRuntimeStructuresValid_assertOk b cnt &&
      runOk rest (GcRuntimeStructuresValid b cnt)

/-! ## ScanContext and collaborator events -/

/-- The two `ScanContext` fields this layer reads (`sc->promotion`,
`sc->thread_number`). -/
structure ScanContext where
  promotion : Bool
  thread_number : Nat

/-- Calls `GcScanHandles` makes into the handle-table collaborator, in
source order. -/
inductive HandleScanEvt where
  | tracePinningRoots
  | traceNormalRoots
  | updatePointers
  | updatePinnedPointers
  | depHandleRelocation
  | weakInteriorRelocation
deriving DecidableEq, Repr

/-- Whether a handle-table call marks referents as roots (the promotion
phase walks); relocation walks do not mark. -/
def HandleScanEvt.isMarking : HandleScanEvt → Bool
  | .tracePinningRoots => true
  | .traceNormalRoots => true
  | _ => false

/-- `GCScan::GcScanHandles`: dispatches on `sc->promotion`.  When true it
calls `Ref_TracePinningRoots` then `Ref_TraceNormalRoots`; when false it
calls `Ref_UpdatePointers`, `Ref_UpdatePinnedPointers`,
`Ref_ScanDependentHandlesForRelocation`,
`Ref_ScanWeakInteriorPointersForRelocation`, in that order.  Modelled as
the trace of collaborator calls. -/
def GcScanHandles (sc : ScanContext) : List HandleScanEvt :=
  if sc.promotion then
    [.tracePinningRoots, .traceNormalRoots]
  else
    [.updatePointers, .updatePinnedPointers, .depHandleRelocation,
      .weakInteriorRelocation]

/-- Side effects of `GcPromotionsGranted` and `GcDemote`. -/
inductive NotifyEvt where
  | ageHandles
  | rejuvenateHandles
  | syncBlockPromotionsGranted
  | syncBlockDemote
deriving DecidableEq, Repr

/-- `GCScan::GcPromotionsGranted`: always calls `Ref_AgeHandles`, then
notifies the synchronization-object cache
(`GCToEEInterface::SyncBlockCachePromotionsGranted`) only when
`!IsServerHeap() || sc->thread_number == 0`.  Modelled as the trace of
collaborator calls, with `isServer` the value of `IsServerHeap()`. -/
def GcPromotionsGranted (isServer : Bool) (sc : ScanContext) :
    List NotifyEvt :=
  [.ageHandles] ++
    (if !isServer || sc.thread_number == 0 then
      [.syncBlockPromotionsGranted] else [])

/-- `GCScan::GcDemote`: always calls `Ref_RejuvenateHandles`, then notifies
the synchronization-object cache (`GCToEEInterface::SyncBlockCacheDemote`)
only when `!IsServerHeap() || sc->thread_number == 0`. -/
def GcDemote (isServer : Bool) (sc : ScanContext) : List NotifyEvt :=
  [.rejuvenateHandles] ++
    (if !isServer || sc.thread_number == 0 then
      [.syncBlockDemote] else [])

/-! ## Synchronization-object cache weak scan -/

/-- `CheckPromoted` (static callback in gcscan.cpp): nulls the stored
reference when `g_theGCHeap->IsPromoted` reports the referent not
promoted, otherwise leaves it unchanged.  `isPromoted` stands for the
opaque `IsPromoted` collaborator, `r` for the stored reference
(`none` models a null pointer). -/
def CheckPromoted (isPromoted : Option Nat → Bool) (r : Option Nat) :
    Option Nat :=
  if !isPromoted r then none else r

/-- Modelled from the spec: `GCToEEInterface::SyncBlockCacheWeakPtrScan`
(not under src/) — §4.3: a pass over the external synchronization-object
cache applying the visitor to each stored reference. -/
def SyncBlockCacheWeakPtrScan (visitor : Option Nat → Option Nat)
    (cache : List (Option Nat)) : List (Option Nat) :=
  cache.map visitor

/-- `GCScan::GcWeakPtrScanBySingleThread`: both `condemned` and `max_gen`
are `UNREFERENCED_PARAMETER`; the body only runs the sync-block cache scan
with the `CheckPromoted` visitor. -/
def GcWeakPtrScanBySingleThread (condemned max_gen : Int)
    (isPromoted : Option Nat → Bool) (cache : List (Option Nat)) :
    List (Option Nat) :=
  SyncBlockCacheWeakPtrScan (CheckPromoted isPromoted) cache

/-! ## Weak-pointer death scan (GcWeakPtrScan) -/

/-- Events recording which handle-table operation ran, in order. -/
inductive WeakScanEvt where
  | checkReachable
  | depHandleClearing
deriving DecidableEq, Repr

/-- A long-weak handle: its handle-table generation and its stored
reference (`none` = already null). -/
structure WeakHandle where
  gen : Nat
  referent : Option Nat
deriving DecidableEq, Repr

/-- A dependent-handle pair's stored slots at clearing time. -/
structure DepSlots where
  primary : Option Nat
  secondary : Option Nat
deriving DecidableEq, Repr

/-- State the weak-death scan walks: long-weak handles, dependent-handle
slots and the trace of handle-table operations performed. -/
structure WeakScanState where
  longWeak : List WeakHandle
  depPairs : List DepSlots
  trace : List WeakScanEvt
deriving DecidableEq, Repr

/-- Clearing rule for one long-weak handle: in the condemned range
(generation at most `condemned`), a dead (unpromoted) referent is nulled;
otherwise the handle is untouched. -/
def clearWeakHandle (condemned : Nat) (isPromoted : Nat → Bool)
    (h : WeakHandle) : WeakHandle :=
  if h.gen ≤ condemned then
    match h.referent with
    | some o => if isPromoted o then h else { h with referent := none }
    | none => h
  else h

/-- Modelled from the spec: `Ref_CheckReachable` (not under src/) — §4.3:
for every long-weak handle in the condemned range, clears it if the
referent is dead (not promoted). -/
def Ref_CheckReachable (condemned : Nat) (isPromoted : Nat → Bool)
    (st : WeakScanState) : WeakScanState :=
  { st with
      longWeak := st.longWeak.map (clearWeakHandle condemned isPromoted),
      trace := st.trace ++ [.checkReachable] }

/-- Whether a pair's primary is now definitely dead: the primary slot is
null or its referent was never promoted. -/
def primaryDead (isPromoted : Nat → Bool) (p : DepSlots) : Bool :=
  match p.primary with
  | none => true
  | some o => !isPromoted o

/-- Modelled from the spec: `Ref_ScanDependentHandlesForClearing` (not
under src/) — gcscan.cpp comment and §4.3/§4.4: clears any secondary whose
primary is now definitely dead (both slots of such a pair are cleared). -/
def Ref_ScanDependentHandlesForClearing (isPromoted : Nat → Bool)
    (st : WeakScanState) : WeakScanState :=
  { st with
      depPairs := st.depPairs.map (fun p =>
        if primaryDead isPromoted p then ⟨none, none⟩ else p),
      trace := st.trace ++ [.depHandleClearing] }

/-- `GCScan::GcWeakPtrScan`: calls `Ref_CheckReachable` first, then
`Ref_ScanDependentHandlesForClearing`, exactly in that order. -/
def GcWeakPtrScan (condemned : Nat) (isPromoted : Nat → Bool)
    (st : WeakScanState) : WeakScanState :=
  Ref_ScanDependentHandlesForClearing isPromoted
    (Ref_CheckReachable condemned isPromoted st)

/-! ## Dependent-handle promotion scan

The handle-table walk `Ref_ScanDependentHandlesForPromotion` and the
mark-stack engine are outside src/; they are modelled from the spec.
Objects are naturals below a universe bound `n`; `g x` lists the objects
directly referenced by `x` (the object graph the mark-stack engine
traces); the marked set is the engine's promotion state.  Reporting an
object to the promotion callback marks it and everything the engine can
trace from it, which models the state after the collector has drained its
mark stack — the spec guarantees the interleaved incomplete scans converge
to the same answer as this synchronous trace. -/

/-- One tracing step of the mark-stack engine: add every object directly
referenced by a marked object. -/
def stepG (g : Nat → List Nat) (m : Finset Nat) : Finset Nat :=
  m ∪ m.biUnion (fun x => (g x).toFinset)

/-- `k` tracing steps; with `k` the universe bound this is the engine's
complete trace from `m`. -/
def closureG (g : Nat → List Nat) : Nat → Finset Nat → Finset Nat
  | 0, m => m
  | k + 1, m => closureG g k (stepG g m)

/-- Modelled from the spec: the promotion callback
(`m_pfnPromoteFunction`, §6) — report `s` as a root: the engine marks it
and completes its trace from the new root. -/
def promoteSecondary (g : Nat → List Nat) (n : Nat) (s : Nat)
    (m : Finset Nat) : Finset Nat :=
  closureG g n (insert s m)

/-- The fields of `DhContext` this layer reads and writes
(`m_pfnPromoteFunction` is carried separately as `g`/`n`). -/
structure DhContext where
  m_iCondemned : Int
  m_iMaxGen : Int
  m_fUnpromotedPrimaries : Bool
  m_fPromoted : Bool
deriving DecidableEq, Repr

/-- Scan state: the mark-stack engine's marked set plus the per-heap
dependent-handle context. -/
structure DhState where
  marked : Finset Nat
  dh : DhContext
deriving DecidableEq

/-- Modelled from the spec: the walk inside
`Ref_ScanDependentHandlesForPromotion` (not under src/) — §4.4: for each
pair whose primary has been marked and whose secondary has not, promote
the secondary via the callback; the boolean accumulates whether any
secondary was promoted this walk. -/
def scanPairs (g : Nat → List Nat) (n : Nat) (pairs : List (Nat × Nat))
    (m : Finset Nat) (anyp : Bool) : Finset Nat × Bool :=
  match pairs with
  | [] => (m, anyp)
  | (p, s) :: rest =>
      if p ∈ m ∧ s ∉ m then
        scanPairs g n rest (promoteSecondary g n s m) true
      else
        scanPairs g n rest m anyp

/-- A pair whose primary is unreachable so far and whose secondary is
still unpromoted — a pair that might still need promotion. -/
def unresolvedPair (m : Finset Nat) (pr : Nat × Nat) : Bool :=
  decide (pr.1 ∉ m ∧ pr.2 ∉ m)

/-- Modelled from the spec: `Ref_ScanDependentHandlesForPromotion` (not
under src/) — §4.4 step 1/3: one promotion walk; afterwards
`m_fPromoted` records whether the walk promoted any secondary and
`m_fUnpromotedPrimaries` is true iff at least one pair remains with an
unreachable-so-far primary and an as-yet-unpromoted secondary.  Returns
true iff at least one object was promoted. -/
def Ref_ScanDependentHandlesForPromotion (g : Nat → List Nat) (n : Nat)
    (pairs : List (Nat × Nat)) (st : DhState) : DhState × Bool :=
  let res := scanPairs g n pairs st.marked false
  ({ marked := res.1,
     dh := { st.dh with
               m_fUnpromotedPrimaries := pairs.any (unresolvedPair res.1),
               m_fPromoted := res.2 } },
   res.2)

/-- `GCScan::GcDhInitialScan`: records the cycle parameters in the
dependent-handle context, then performs one promotion walk (the walk's
return value is discarded). -/
def GcDhInitialScan (g : Nat → List Nat) (n : Nat)
    (pairs : List (Nat × Nat)) (condemned max_gen : Int) (st : DhState) :
    DhState :=
  let st1 : DhState :=
    { st with dh := { st.dh with m_iCondemned := condemned,
                                 m_iMaxGen := max_gen } }
  (Ref_ScanDependentHandlesForPromotion g n pairs st1).1

/-- `GCScan::GcDhUnpromotedHandlesExist`: returns the context's
`m_fUnpromotedPrimaries` flag. -/
def GcDhUnpromotedHandlesExist (st : DhState) : Bool :=
  st.dh.m_fUnpromotedPrimaries

/-- `GCScan::GcDhReScan`: one more promotion walk; returns true iff at
least one object was promoted by it. -/
def GcDhReScan (g : Nat → List Nat) (n : Nat) (pairs : List (Nat × Nat))
    (st : DhState) : DhState × Bool :=
  Ref_ScanDependentHandlesForPromotion g n pairs st

/-- The orchestrator's fixed-point loop (§4.4/§4.6): call `GcDhReScan`
until it reports no promotion, with enough fuel to reach convergence. -/
def dhFixedPointLoop (g : Nat → List Nat) (n : Nat)
    (pairs : List (Nat × Nat)) : Nat → DhState → DhState
  | 0, st => st
  | fuel + 1, st =>
      let res := GcDhReScan g n pairs st
      if res.2 then dhFixedPointLoop g n pairs fuel res.1 else res.1

/-- One complete collection cycle for the dependent-handle scanner:
the engine's trace from the roots, the initial scan, then the re-scan
loop run to convergence (`pairs.length + 1` iterations always suffice,
proved below). -/
def dhCycle (g : Nat → List Nat) (n : Nat) (pairs : List (Nat × Nat))
    (roots : Finset Nat) (condemned max_gen : Int) : DhState :=
  let st0 : DhState :=
    { marked := closureG g n roots, dh := ⟨0, 0, false, false⟩ }
  dhFixedPointLoop g n pairs (pairs.length + 1)
    (GcDhInitialScan g n pairs condemned max_gen st0)

/-- Transitive reachability of the complete synchronous trace: from the
roots, through object-graph edges, and through the dependent-handle rule
(reachable primary keeps its secondary alive). -/
inductive Reach (roots : Finset Nat) (g : Nat → List Nat)
    (pairs : List (Nat × Nat)) : Nat → Prop
  | root {x : Nat} : x ∈ roots → Reach roots g pairs x
  | edge {x y : Nat} : Reach roots g pairs x → y ∈ g x →
      Reach roots g pairs y
  | dep {p s : Nat} : (p, s) ∈ pairs → Reach roots g pairs p →
      Reach roots g pairs s

/-! ### ValidityCounter lemmas -/

lemma runOps_append (l₁ l₂ : List Bool) (cnt : Int) :
    runOps (l₁ ++ l₂) cnt = runOps l₂ (runOps l₁ cnt) := by
  induction l₁ generalizing cnt with
  | nil => rfl
  | cons b rest ih => simp [runOps, ih]

lemma runOps_replicate_false (n : Nat) (cnt : Int) :
    runOps (List.replicate n false) cnt = cnt + n := by
  induction n generalizing cnt with
  | zero => simp [runOps]
  | succ k ih =>
      simp [List.replicate_succ, runOps, GcRuntimeStructuresValid, ih]
      omega

lemma runOps_replicate_true (n : Nat) (cnt : Int) :
    runOps (List.replicate n true) cnt = cnt - n := by
  induction n generalizing cnt with
  | zero => simp [runOps]
  | succ k ih =>
      simp [List.replicate_succ, runOps, GcRuntimeStructuresValid, ih]
      omega

lemma runStates_nonneg (ops : List Bool) (cnt : Int) (h0 : 0 ≤ cnt)
    (hok : runOk ops cnt = true) : ∀ c ∈ runStates ops cnt, 0 ≤ c := by
  induction ops generalizing cnt with
  | nil =>
      intro c hc
      simp only [runStates, List.mem_singleton] at hc
      exact hc ▸ h0
  | cons b rest ih =>
      simp only [runOk, Bool.and_eq_true] at hok
      intro c hc
      simp only [runStates, List.mem_cons] at hc
      rcases hc with rfl | hc
      · exact h0
      · refine ih (GcRuntimeStructuresValid b cnt) ?_ hok.2 c hc
        have h1 := hok.1
        cases b <;>
          simp [GcRuntimeStructuresValid_assertOk, GcRuntimeStructuresValid]
            at h1 ⊢ <;>
          omega

/-! ### Mark-engine closure lemmas -/

lemma subset_stepG (g : Nat → List Nat) (m : Finset Nat) :
    m ⊆ stepG g m :=
  Finset.subset_union_left

lemma subset_closureG (g : Nat → List Nat) (k : Nat) (m : Finset Nat) :
    m ⊆ closureG g k m := by
  induction k generalizing m with
  | zero => exact Finset.Subset.refl m
  | succ k ih => exact (subset_stepG g m).trans (ih (stepG g m))

lemma closureG_succ (g : Nat → List Nat) (k : Nat) (m : Finset Nat) :
    closureG g (k + 1) m = stepG g (closureG g k m) := by
  induction k generalizing m with
  | zero => rfl
  | succ k ih =>
      show closureG g (k + 1) (stepG g m) = stepG g (closureG g (k + 1) m)
      rw [ih (stepG g m)]
      rfl

lemma closureG_add (g : Nat → List Nat) (k j : Nat) (m : Finset Nat) :
    closureG g (k + j) m = closureG g j (closureG g k m) := by
  induction j with
  | zero => rfl
  | succ j ih =>
      rw [← Nat.add_assoc, closureG_succ, ih, closureG_succ]

lemma stepG_range {g : Nat → List Nat} {n : Nat}
    (hg : ∀ x y, y ∈ g x → y < n) {m : Finset Nat}
    (hm : m ⊆ Finset.range n) : stepG g m ⊆ Finset.range n := by
  intro y hy
  rcases Finset.mem_union.1 hy with h | h
  · exact hm h
  · rcases Finset.mem_biUnion.1 h with ⟨x, _, hyx⟩
    exact Finset.mem_range.2 (hg x y (List.mem_toFinset.1 hyx))

lemma closureG_range {g : Nat → List Nat} {n : Nat}
    (hg : ∀ x y, y ∈ g x → y < n) (k : Nat) {m : Finset Nat}
    (hm : m ⊆ Finset.range n) : closureG g k m ⊆ Finset.range n := by
  induction k generalizing m with
  | zero => exact hm
  | succ k ih => exact ih (stepG_range hg hm)

lemma stepG_fixed_gClosed {g : Nat → List Nat} {m : Finset Nat}
    (h : stepG g m = m) : ∀ x ∈ m, ∀ y ∈ g x, y ∈ m := by
  intro x hx y hy
  have : y ∈ stepG g m :=
    Finset.mem_union_right _
      (Finset.mem_biUnion.2 ⟨x, hx, List.mem_toFinset.2 hy⟩)
  rwa [h] at this

lemma closureG_of_fixed {g : Nat → List Nat} {m : Finset Nat}
    (h : stepG g m = m) (k : Nat) : closureG g k m = m := by
  induction k with
  | zero => rfl
  | succ k ih => rw [closureG_succ, ih, h]

lemma closureG_card_growth (g : Nat → List Nat) (m : Finset Nat) :
    ∀ k, (∀ j, j < k → stepG g (closureG g j m) ≠ closureG g j m) →
      m.card + k ≤ (closureG g k m).card := by
  intro k
  induction k with
  | zero => simp [closureG]
  | succ k ih =>
      intro h
      have h1 := ih (fun j hj => h j (Nat.lt_succ_of_lt hj))
      have hne := h k (Nat.lt_succ_self k)
      have hsub : closureG g k m ⊂ closureG g (k + 1) m := by
        rw [closureG_succ]
        exact Finset.ssubset_iff_subset_ne.2
          ⟨subset_stepG g _, fun he => hne he.symm⟩
      have h2 := Finset.card_lt_card hsub
      omega

lemma stepG_closureG_fixed {g : Nat → List Nat} {n : Nat}
    (hg : ∀ x y, y ∈ g x → y < n) {m : Finset Nat}
    (hm : m ⊆ Finset.range n) :
    stepG g (closureG g n m) = closureG g n m := by
  by_contra hne
  have hall : ∀ j, j < n + 1 →
      stepG g (closureG g j m) ≠ closureG g j m := by
    intro j hj hfix
    have hje : closureG g n m = closureG g j m := by
      have hn : n = j + (n - j) := by omega
      rw [hn, closureG_add]
      exact closureG_of_fixed hfix (n - j)
    apply hne
    rw [hje]
    exact hfix
  have h1 := closureG_card_growth g m (n + 1) hall
  have h2 : (closureG g (n + 1) m).card ≤ n := by
    have := Finset.card_le_card (closureG_range hg (n + 1) hm)
    simpa using this
  omega

lemma closureG_sound {g : Nat → List Nat} {Q : Nat → Prop}
    (hQg : ∀ x y, Q x → y ∈ g x → Q y) (k : Nat) :
    ∀ {m : Finset Nat}, (∀ x ∈ m, Q x) → ∀ x ∈ closureG g k m, Q x := by
  induction k with
  | zero => intro m hm; exact hm
  | succ k ih =>
      intro m hm x hx
      refine ih ?_ x hx
      intro y hy
      rcases Finset.mem_union.1 hy with h | h
      · exact hm y h
      · rcases Finset.mem_biUnion.1 h with ⟨a, ha, hya⟩
        exact hQg a y (hm a ha) (List.mem_toFinset.1 hya)

/-! ### Promotion-walk lemmas -/

lemma promoteSecondary_subset (g : Nat → List Nat) (n s : Nat)
    (m : Finset Nat) : m ⊆ promoteSecondary g n s m :=
  (Finset.subset_insert s m).trans (subset_closureG g n (insert s m))

lemma mem_promoteSecondary (g : Nat → List Nat) (n s : Nat)
    (m : Finset Nat) : s ∈ promoteSecondary g n s m :=
  subset_closureG g n (insert s m) (Finset.mem_insert_self s m)

lemma scanPairs_marked_mono (g : Nat → List Nat) (n : Nat)
    (pairs : List (Nat × Nat)) (m : Finset Nat) (b : Bool) :
    m ⊆ (scanPairs g n pairs m b).1 := by
  induction pairs generalizing m b with
  | nil => exact Finset.Subset.refl m
  | cons pr rest ih =>
      obtain ⟨p, s⟩ := pr
      simp only [scanPairs]
      split
      · exact (promoteSecondary_subset g n s m).trans (ih _ _)
      · exact ih _ _

lemma scanPairs_inv {g : Nat → List Nat} {n : Nat}
    (hg : ∀ x y, y ∈ g x → y < n) {pairs : List (Nat × Nat)}
    (hsec : ∀ pr ∈ pairs, pr.2 < n) {m : Finset Nat}
    (hm : m ⊆ Finset.range n) (hfix : stepG g m = m) (b : Bool) :
    (scanPairs g n pairs m b).1 ⊆ Finset.range n ∧
      stepG g (scanPairs g n pairs m b).1 = (scanPairs g n pairs m b).1 := by
  induction pairs generalizing m b with
  | nil => exact ⟨hm, hfix⟩
  | cons pr rest ih =>
      obtain ⟨p, s⟩ := pr
      simp only [scanPairs]
      split
      · have hins : insert s m ⊆ Finset.range n := by
          intro x hx
          rcases Finset.mem_insert.1 hx with rfl | hx
          · exact Finset.mem_range.2 (hsec (p, x) (List.mem_cons_self _ _))
          · exact hm hx
        exact ih (fun pr h => hsec pr (List.mem_cons_of_mem _ h))
          (closureG_range hg n hins) (stepG_closureG_fixed hg hins) _
      · exact ih (fun pr h => hsec pr (List.mem_cons_of_mem _ h)) hm hfix _

lemma scanPairs_true (g : Nat → List Nat) (n : Nat)
    (pairs : List (Nat × Nat)) (m : Finset Nat) :
    (scanPairs g n pairs m true).2 = true := by
  induction pairs generalizing m with
  | nil => rfl
  | cons pr rest ih =>
      obtain ⟨p, s⟩ := pr
      simp only [scanPairs]
      split
      · exact ih _
      · exact ih _

lemma scanPairs_no_progress {g : Nat → List Nat} {n : Nat}
    {pairs : List (Nat × Nat)} {m : Finset Nat}
    (h : (scanPairs g n pairs m false).2 = false) :
    (scanPairs g n pairs m false).1 = m ∧
      ∀ pr ∈ pairs, pr.1 ∈ m → pr.2 ∈ m := by
  induction pairs with
  | nil => exact ⟨rfl, by simp⟩
  | cons pr rest ih =>
      obtain ⟨p, s⟩ := pr
      by_cases hc : p ∈ m ∧ s ∉ m
      · exfalso
        have : (scanPairs g n ((p, s) :: rest) m false).2 = true := by
          simp only [scanPairs, if_pos hc]
          exact scanPairs_true g n rest _
        rw [this] at h
        cases h
      · have hrw : scanPairs g n ((p, s) :: rest) m false =
            scanPairs g n rest m false := by
          simp only [scanPairs, if_neg hc]
        rw [hrw] at h
        obtain ⟨h1, h2⟩ := ih h
        refine ⟨by rw [hrw, h1], ?_⟩
        intro pr hpr hp1
        rcases List.mem_cons.1 hpr with rfl | hpr
        · by_contra hs
          exact hc ⟨hp1, hs⟩
        · exact h2 pr hpr hp1

lemma scanPairs_progress {g : Nat → List Nat} {n : Nat}
    {pairs : List (Nat × Nat)} {m : Finset Nat}
    (h : (scanPairs g n pairs m false).2 = true) :
    ∃ pr ∈ pairs, pr.2 ∉ m ∧ pr.2 ∈ (scanPairs g n pairs m false).1 := by
  induction pairs generalizing m with
  | nil => cases h
  | cons pr rest ih =>
      obtain ⟨p, s⟩ := pr
      by_cases hc : p ∈ m ∧ s ∉ m
      · refine ⟨(p, s), List.mem_cons_self _ _, hc.2, ?_⟩
        have h1 : s ∈ promoteSecondary g n s m := mem_promoteSecondary g n s m
        have h2 := scanPairs_marked_mono g n rest (promoteSecondary g n s m) true
        have hrw : scanPairs g n ((p, s) :: rest) m false =
            scanPairs g n rest (promoteSecondary g n s m) true := by
          simp only [scanPairs, if_pos hc]
        rw [hrw]
        exact h2 h1
      · have hrw : scanPairs g n ((p, s) :: rest) m false =
            scanPairs g n rest m false := by
          simp only [scanPairs, if_neg hc]
        rw [hrw] at h ⊢
        obtain ⟨pr, hpr, hs1, hs2⟩ := ih h
        exact ⟨pr, List.mem_cons_of_mem _ hpr, hs1, hs2⟩

lemma scanPairs_sound {roots : Finset Nat} {g : Nat → List Nat} {n : Nat}
    {pairs0 : List (Nat × Nat)} (l : List (Nat × Nat))
    (hsub : ∀ pr ∈ l, pr ∈ pairs0) {m : Finset Nat} (b : Bool)
    (hm : ∀ x ∈ m, Reach roots g pairs0 x) :
    ∀ x ∈ (scanPairs g n l m b).1, Reach roots g pairs0 x := by
  induction l generalizing m b with
  | nil => exact hm
  | cons pr rest ih =>
      obtain ⟨p, s⟩ := pr
      simp only [scanPairs]
      split
      · rename_i hc
        refine ih (fun pr h => hsub pr (List.mem_cons_of_mem _ h)) _ ?_
        refine closureG_sound (fun x y hx hy => Reach.edge hx hy) n ?_
        intro y hy
        rcases Finset.mem_insert.1 hy with rfl | hy
        · exact Reach.dep (hsub (p, y) (List.mem_cons_self _ _)) (hm p hc.1)
        · exact hm y hy
      · exact ih (fun pr h => hsub pr (List.mem_cons_of_mem _ h)) _ hm

/-! ### Fixed-point loop lemmas -/

lemma GcDhReScan_marked (g : Nat → List Nat) (n : Nat)
    (pairs : List (Nat × Nat)) (st : DhState) :
    (GcDhReScan g n pairs st).1.marked =
      (scanPairs g n pairs st.marked false).1 := rfl

lemma GcDhReScan_snd (g : Nat → List Nat) (n : Nat)
    (pairs : List (Nat × Nat)) (st : DhState) :
    (GcDhReScan g n pairs st).2 =
      (scanPairs g n pairs st.marked false).2 := rfl

lemma dhLoop_marked_mono (g : Nat → List Nat) (n : Nat)
    (pairs : List (Nat × Nat)) (fuel : Nat) (st : DhState) :
    st.marked ⊆ (dhFixedPointLoop g n pairs fuel st).marked := by
  induction fuel generalizing st with
  | zero => exact Finset.Subset.refl _
  | succ fuel ih =>
      simp only [dhFixedPointLoop]
      split
      · exact Finset.Subset.trans
          (scanPairs_marked_mono g n pairs st.marked false)
          (ih (GcDhReScan g n pairs st).1)
      · exact scanPairs_marked_mono g n pairs st.marked false

lemma dhLoop_inv {g : Nat → List Nat} {n : Nat}
    (hg : ∀ x y, y ∈ g x → y < n) {pairs : List (Nat × Nat)}
    (hsec : ∀ pr ∈ pairs, pr.2 < n) (fuel : Nat) {st : DhState}
    (hm : st.marked ⊆ Finset.range n) (hfix : stepG g st.marked = st.marked) :
    (dhFixedPointLoop g n pairs fuel st).marked ⊆ Finset.range n ∧
      stepG g (dhFixedPointLoop g n pairs fuel st).marked =
        (dhFixedPointLoop g n pairs fuel st).marked := by
  induction fuel generalizing st with
  | zero => exact ⟨hm, hfix⟩
  | succ fuel ih =>
      have hpass := scanPairs_inv hg hsec hm hfix false
      simp only [dhFixedPointLoop]
      split
      · exact ih hpass.1 hpass.2
      · exact hpass

lemma dhLoop_sound {roots : Finset Nat} {g : Nat → List Nat} {n : Nat}
    {pairs : List (Nat × Nat)} (fuel : Nat) {st : DhState}
    (hm : ∀ x ∈ st.marked, Reach roots g pairs x) :
    ∀ x ∈ (dhFixedPointLoop g n pairs fuel st).marked,
      Reach roots g pairs x := by
  induction fuel generalizing st with
  | zero => exact hm
  | succ fuel ih =>
      have hpass := scanPairs_sound pairs (fun pr h => h) false hm
        (n := n)
      simp only [dhFixedPointLoop]
      split
      · exact ih hpass
      · exact hpass

lemma dhLoop_pairClosed (g : Nat → List Nat) (n : Nat)
    (pairs : List (Nat × Nat)) (fuel : Nat) (st : DhState)
    (hfuel : ((pairs.map Prod.snd).toFinset \ st.marked).card < fuel) :
    ∀ pr ∈ pairs,
      pr.1 ∈ (dhFixedPointLoop g n pairs fuel st).marked →
        pr.2 ∈ (dhFixedPointLoop g n pairs fuel st).marked := by
  induction fuel generalizing st with
  | zero => omega
  | succ fuel ih =>
      by_cases hflag : (scanPairs g n pairs st.marked false).2 = true
      · have hrw : dhFixedPointLoop g n pairs (fuel + 1) st =
            dhFixedPointLoop g n pairs fuel (GcDhReScan g n pairs st).1 := by
          simp only [dhFixedPointLoop]
          rw [if_pos]
          exact hflag
        rw [hrw]
        obtain ⟨pr, hpr, hs1, hs2⟩ := scanPairs_progress hflag
        have hsubd : (pairs.map Prod.snd).toFinset \
              (GcDhReScan g n pairs st).1.marked ⊂
            (pairs.map Prod.snd).toFinset \ st.marked := by
          constructor
          · exact Finset.sdiff_subset_sdiff (Finset.Subset.refl _)
              (scanPairs_marked_mono g n pairs st.marked false)
          · intro hcon
            have h1 : pr.2 ∈ (pairs.map Prod.snd).toFinset \ st.marked :=
              Finset.mem_sdiff.2
                ⟨List.mem_toFinset.2 (List.mem_map_of_mem Prod.snd hpr), hs1⟩
            have h2 := hcon h1
            rw [GcDhReScan_marked] at h2
            exact (Finset.mem_sdiff.1 h2).2 hs2
        have hcard := Finset.card_lt_card hsubd
        exact ih _ (by omega)
      · have hflag2 : (scanPairs g n pairs st.marked false).2 = false := by
          cases h : (scanPairs g n pairs st.marked false).2
          · rfl
          · exact absurd h hflag
        obtain ⟨hfix1, hclosed⟩ := scanPairs_no_progress hflag2
        have hrw : dhFixedPointLoop g n pairs (fuel + 1) st =
            (GcDhReScan g n pairs st).1 := by
          simp only [dhFixedPointLoop]
          rw [if_neg]
          rw [GcDhReScan_snd, hflag2]
          simp
        rw [hrw, GcDhReScan_marked, hfix1]
        exact hclosed

lemma Reach_subset_of_closed {roots : Finset Nat} {g : Nat → List Nat}
    {pairs : List (Nat × Nat)} {M : Finset Nat} (hroots : roots ⊆ M)
    (hedge : ∀ x ∈ M, ∀ y ∈ g x, y ∈ M)
    (hdep : ∀ pr ∈ pairs, pr.1 ∈ M → pr.2 ∈ M) :
    ∀ x, Reach roots g pairs x → x ∈ M := by
  intro x hx
  induction hx with
  | root h => exact hroots h
  | edge _ hy ih => exact hedge _ ih _ hy
  | dep hpr _ ih => exact hdep _ hpr ih

/-- The complete correctness of one dependent-handle cycle: the final
marked set is exactly the set of transitively reachable objects, and every
pair with a marked primary has its secondary marked. -/
lemma dhCycle_correct {g : Nat → List Nat} {n : Nat}
    {pairs : List (Nat × Nat)} {roots : Finset Nat}
    (condemned max_gen : Int) (hg : ∀ x y, y ∈ g x → y < n)
    (hroots : roots ⊆ Finset.range n) (hsec : ∀ pr ∈ pairs, pr.2 < n) :
    (∀ x, x ∈ (dhCycle g n pairs roots condemned max_gen).marked ↔
        Reach roots g pairs x) ∧
      ∀ pr ∈ pairs,
        pr.1 ∈ (dhCycle g n pairs roots condemned max_gen).marked →
          pr.2 ∈ (dhCycle g n pairs roots condemned max_gen).marked := by
  have hm0 : closureG g n roots ⊆ Finset.range n := closureG_range hg n hroots
  have hfix0 : stepG g (closureG g n roots) = closureG g n roots :=
    stepG_closureG_fixed hg hroots
  have hsound0 : ∀ x ∈ closureG g n roots, Reach roots g pairs x :=
    closureG_sound (fun x y hx hy => Reach.edge hx hy) n
      (fun x hx => Reach.root hx)
  set st0 : DhState :=
    { marked := closureG g n roots, dh := ⟨0, 0, false, false⟩ } with hst0
  set st1 : DhState := GcDhInitialScan g n pairs condemned max_gen st0
    with hst1
  have hst1m : st1.marked = (scanPairs g n pairs (closureG g n roots) false).1 :=
    rfl
  have hm1 : st1.marked ⊆ Finset.range n := by
    rw [hst1m]
    exact (scanPairs_inv hg hsec hm0 hfix0 false).1
  have hfix1 : stepG g st1.marked = st1.marked := by
    rw [hst1m]
    exact (scanPairs_inv hg hsec hm0 hfix0 false).2
  have hsound1 : ∀ x ∈ st1.marked, Reach roots g pairs x := by
    rw [hst1m]
    exact scanPairs_sound pairs (fun pr h => h) false hsound0
  have hcyc : dhCycle g n pairs roots condemned max_gen =
      dhFixedPointLoop g n pairs (pairs.length + 1) st1 := rfl
  have hfuel : ((pairs.map Prod.snd).toFinset \ st1.marked).card <
      pairs.length + 1 := by
    have h1 : ((pairs.map Prod.snd).toFinset \ st1.marked).card ≤
        (pairs.map Prod.snd).toFinset.card :=
      Finset.card_le_card (Finset.sdiff_subset)
    have h2 : (pairs.map Prod.snd).toFinset.card ≤
        (pairs.map Prod.snd).length := List.toFinset_card_le _
    have h3 : (pairs.map Prod.snd).length = pairs.length :=
      List.length_map _ _
    omega
  have hpc := dhLoop_pairClosed g n pairs (pairs.length + 1) st1 hfuel
  have hinv := dhLoop_inv hg hsec (pairs.length + 1) hm1 hfix1
  have hsound := dhLoop_sound (n := n) (pairs.length + 1) hsound1
  have hrootsIn : roots ⊆
      (dhFixedPointLoop g n pairs (pairs.length + 1) st1).marked := by
    refine ((subset_closureG g n roots).trans ?_).trans
      (dhLoop_marked_mono g n pairs (pairs.length + 1) st1)
    rw [hst1m]
    exact scanPairs_marked_mono g n pairs _ false
  rw [hcyc]
  refine ⟨fun x => ⟨fun hx => hsound x hx, fun hx => ?_⟩, hpc⟩
  exact Reach_subset_of_closed hrootsIn (stepG_fixed_gClosed hinv.2) hpc x hx

/-! ### Notification-count helper lemmas -/

lemma GcPromotionsGranted_count (isServer b : Bool) (t : Nat) :
    (GcPromotionsGranted isServer ⟨b, t⟩).count
        NotifyEvt.syncBlockPromotionsGranted =
      if !isServer || t == 0 then 1 else 0 := by
  simp only [GcPromotionsGranted]
  split
  · simp [List.count_cons, List.count_nil]
  · simp [List.count_cons, List.count_nil]

lemma GcDemote_count (isServer b : Bool) (t : Nat) :
    (GcDemote isServer ⟨b, t⟩).count NotifyEvt.syncBlockDemote =
      if !isServer || t == 0 then 1 else 0 := by
  simp only [GcDemote]
  split
  · simp [List.count_cons, List.count_nil]
  · simp [List.count_cons, List.count_nil]

lemma range_sum_indicator (f : Nat → Nat) (hf0 : f 0 = 1)
    (hf : ∀ t, 0 < t → f t = 0) :
    ∀ N, 1 ≤ N → ((List.range N).map f).sum = 1 := by
  intro N
  induction N with
  | zero => omega
  | succ k ih =>
      intro _
      rw [List.range_succ, List.map_append, List.sum_append]
      rcases Nat.eq_zero_or_pos k with rfl | hk
      · simp [hf0]
      · rw [ih hk]
        simp [hf k hk]

/-! ## Claim theorems -/

/-- Claim C3: the ValidityCounter (`m_GcStructuresInvalidCnt`) has initial
value 1; along any balanced use (a call sequence on which every `_ASSERTE`
holds) starting from the initial value, every reached counter value is
nonnegative; and `GetGcRuntimeStructuresValid` returns true iff the
counter is exactly zero. -/
theorem C3_validity_counter :
    m_GcStructuresInvalidCnt_init = 1 ∧
      (∀ ops : List Bool, runOk ops m_GcStructuresInvalidCnt_init = true →
        ∀ c ∈ runStates ops m_GcStructuresInvalidCnt_init, 0 ≤ c) ∧
      ∀ cnt : Int, GetGcRuntimeStructuresValid cnt = true ↔ cnt = 0 := by
  refine ⟨rfl, ?_, ?_⟩
  · intro ops hok
    exact runStates_nonneg ops m_GcStructuresInvalidCnt_init (by decide) hok
  · intro cnt
    simp [GetGcRuntimeStructuresValid]

/-- Witness for C3 at the concrete balanced trace
markInvalid-then-markValid from the initial value. -/
theorem C3_validity_counter_witness :
    runOk [false, true] m_GcStructuresInvalidCnt_init = true ∧
      ∀ c ∈ runStates [false, true] m_GcStructuresInvalidCnt_init, 0 ≤ c :=
  ⟨by decide, C3_validity_counter.2.1 [false, true] (by decide)⟩

/-- Claim C4: from any nonnegative counter value, a `markValid`
(`GcRuntimeStructuresValid(true)`) fails its assertion exactly when it
would make the counter negative; the counter update itself is always the
decrement (never a silent no-op); and any balanced `markValid` (counter at
least 1) passes the assertion. -/
theorem C4_unbalanced_markValid_detected (cnt : Int) (h0 : 0 ≤ cnt) :
    (GcRuntimeStructuresValid_assertOk true cnt = false ↔
        GcRuntimeStructuresValid true cnt < 0) ∧
      GcRuntimeStructuresValid true cnt = cnt - 1 ∧
      (1 ≤ cnt → GcRuntimeStructuresValid_assertOk true cnt = true) := by
  refine ⟨?_, rfl, ?_⟩
  · simp [GcRuntimeStructuresValid_assertOk, GcRuntimeStructuresValid]
  · intro h1
    have h2 : (0 : Int) ≤ cnt - 1 := by omega
    simp [GcRuntimeStructuresValid_assertOk, h2]

/-- Witness for C4 at counter value 0: the out-of-balance `markValid` is
detected by the assertion and still decrements. -/
theorem C4_unbalanced_markValid_detected_witness :
    (0 : Int) ≤ 0 ∧
      ((GcRuntimeStructuresValid_assertOk true 0 = false ↔
          GcRuntimeStructuresValid true 0 < 0) ∧
        GcRuntimeStructuresValid true 0 = 0 - 1 ∧
        (1 ≤ (0 : Int) → GcRuntimeStructuresValid_assertOk true 0 = true)) :=
  ⟨by norm_num, C4_unbalanced_markValid_detected 0 (by norm_num)⟩

/-- Counterexample to claim C5 as stated: from the documented initial
counter value 1, one `markInvalid` followed by one `markValid` leaves
`areStructuresValid()` false, not true. -/
theorem C5_counterexample :
    GetGcRuntimeStructuresValid
        (runOps (List.replicate 1 false ++ List.replicate 1 true)
          m_GcStructuresInvalidCnt_init) = false := by
  decide

/-- Claim C5 (amended): for every N and every starting counter value, N
`markInvalid` calls followed by N `markValid` calls restore the counter
exactly, so `areStructuresValid()` afterwards equals its value before the
sequence; it is true after the sequence iff the sequence started from a
valid state (counter 0), which the initial value 1 is not. -/
theorem C5_balanced_sequence_restores (N : Nat) (cnt : Int) :
    runOps (List.replicate N false ++ List.replicate N true) cnt = cnt ∧
      GetGcRuntimeStructuresValid
          (runOps (List.replicate N false ++ List.replicate N true) cnt) =
        GetGcRuntimeStructuresValid cnt := by
  have h : runOps (List.replicate N false ++ List.replicate N true) cnt =
      cnt := by
    rw [runOps_append, runOps_replicate_false, runOps_replicate_true]
    omega
  exact ⟨h, by rw [h]⟩

/-- Claim C8: `GcScanHandles` dispatches on the scan context's promotion
flag: promotion true walks the pinning then the normal-root categories
(both marking walks); promotion false performs the relocation-phase walk
(pointer update, pinned-pointer update, dependent-handle relocation,
weak-interior-pointer relocation) and performs no marking. -/
theorem C8_scan_handles_dispatch (sc : ScanContext) :
    (sc.promotion = true →
        GcScanHandles sc =
          [HandleScanEvt.tracePinningRoots, HandleScanEvt.traceNormalRoots] ∧
          ∀ e ∈ GcScanHandles sc, e.isMarking = true) ∧
      (sc.promotion = false →
        GcScanHandles sc =
          [HandleScanEvt.updatePointers, HandleScanEvt.updatePinnedPointers,
            HandleScanEvt.depHandleRelocation,
            HandleScanEvt.weakInteriorRelocation] ∧
          ∀ e ∈ GcScanHandles sc, e.isMarking = false) := by
  constructor
  · intro h
    refine ⟨by simp [GcScanHandles, h], ?_⟩
    intro e he
    simp [GcScanHandles, h] at he
    rcases he with rfl | rfl <;> rfl
  · intro h
    refine ⟨by simp [GcScanHandles, h], ?_⟩
    intro e he
    simp [GcScanHandles, h] at he
    rcases he with rfl | rfl | rfl | rfl <;> rfl

/-- Witness for C8 on both concrete phases. -/
theorem C8_scan_handles_dispatch_witness :
    (ScanContext.mk true 0).promotion = true ∧
      GcScanHandles ⟨true, 0⟩ =
        [HandleScanEvt.tracePinningRoots, HandleScanEvt.traceNormalRoots] ∧
      ∀ e ∈ GcScanHandles ⟨true, 0⟩, e.isMarking = true :=
  ⟨rfl, (C8_scan_handles_dispatch ⟨true, 0⟩).1 rfl⟩

/-- Claim C9: in a server (multi-heap) run where each of N workers with
thread numbers 0..N-1 invokes `GcPromotionsGranted` once, the sync-block
cache notification happens exactly once, by the worker with
thread_number 0; in single-heap mode it happens unconditionally; and
`GcDemote` follows the same discipline with its demote notification. -/
theorem C9_single_designated_worker (N : Nat) (hN : 1 ≤ N) (b : Bool) :
    (((List.range N).map (fun t =>
          (GcPromotionsGranted true ⟨b, t⟩).count
            NotifyEvt.syncBlockPromotionsGranted)).sum = 1 ∧
        (GcPromotionsGranted true ⟨b, 0⟩).count
            NotifyEvt.syncBlockPromotionsGranted = 1 ∧
        ∀ t, 0 < t →
          (GcPromotionsGranted true ⟨b, t⟩).count
              NotifyEvt.syncBlockPromotionsGranted = 0) ∧
      (∀ t, (GcPromotionsGranted false ⟨b, t⟩).count
          NotifyEvt.syncBlockPromotionsGranted = 1) ∧
      (((List.range N).map (fun t =>
          (GcDemote true ⟨b, t⟩).count NotifyEvt.syncBlockDemote)).sum = 1 ∧
        (GcDemote true ⟨b, 0⟩).count NotifyEvt.syncBlockDemote = 1 ∧
        ∀ t, 0 < t →
          (GcDemote true ⟨b, t⟩).count NotifyEvt.syncBlockDemote = 0) ∧
      ∀ t, (GcDemote false ⟨b, t⟩).count NotifyEvt.syncBlockDemote = 1 := by
  have hp0 : (GcPromotionsGranted true ⟨b, 0⟩).count
      NotifyEvt.syncBlockPromotionsGranted = 1 := by
    rw [GcPromotionsGranted_count]
    simp
  have hpt : ∀ t, 0 < t → (GcPromotionsGranted true ⟨b, t⟩).count
      NotifyEvt.syncBlockPromotionsGranted = 0 := by
    intro t ht
    rw [GcPromotionsGranted_count]
    simp
    omega
  have hd0 : (GcDemote true ⟨b, 0⟩).count NotifyEvt.syncBlockDemote = 1 := by
    rw [GcDemote_count]
    simp
  have hdt : ∀ t, 0 < t →
      (GcDemote true ⟨b, t⟩).count NotifyEvt.syncBlockDemote = 0 := by
    intro t ht
    rw [GcDemote_count]
    simp
    omega
  refine ⟨⟨range_sum_indicator (fun t =>
      (GcPromotionsGranted true ⟨b, t⟩).count
        NotifyEvt.syncBlockPromotionsGranted) hp0 hpt N hN, hp0, hpt⟩, ?_,
    ⟨range_sum_indicator (fun t =>
      (GcDemote true ⟨b, t⟩).count NotifyEvt.syncBlockDemote)
        hd0 hdt N hN, hd0, hdt⟩, ?_⟩
  · intro t
    rw [GcPromotionsGranted_count]
    simp
  · intro t
    rw [GcDemote_count]
    simp

/-- Witness for C9 with two server workers: exactly one cache
notification. -/
theorem C9_single_designated_worker_witness :
    1 ≤ 2 ∧
      ((List.range 2).map (fun t =>
          (GcPromotionsGranted true ⟨true, t⟩).count
            NotifyEvt.syncBlockPromotionsGranted)).sum = 1 :=
  ⟨by norm_num, (C9_single_designated_worker 2 (by norm_num) true).1.1⟩

/-- Claim C10: the observable result of `GcWeakPtrScanBySingleThread` does
not depend on its `condemned` and `max_gen` arguments: any two calls
differing only in those parameters clear exactly the same references. -/
theorem C10_sync_scan_param_independent (c₁ m₁ c₂ m₂ : Int)
    (isPromoted : Option Nat → Bool) (cache : List (Option Nat)) :
    GcWeakPtrScanBySingleThread c₁ m₁ isPromoted cache =
      GcWeakPtrScanBySingleThread c₂ m₂ isPromoted cache := rfl

/-- Claim C2: `GcDhUnpromotedHandlesExist` returns exactly the context's
`m_fUnpromotedPrimaries` flag, and after a scan
(`Ref_ScanDependentHandlesForPromotion`, reached through `GcDhReScan` or
`GcDhInitialScan`) that flag is false iff no dependent-handle pair
currently has an unreachable-so-far primary together with an unpromoted
secondary. -/
theorem C2_unpromoted_handles_query (g : Nat → List Nat) (n : Nat)
    (pairs : List (Nat × Nat)) (st : DhState) (condemned max_gen : Int) :
    GcDhUnpromotedHandlesExist st = st.dh.m_fUnpromotedPrimaries ∧
      (GcDhUnpromotedHandlesExist (GcDhReScan g n pairs st).1 = false ↔
        ∀ pr ∈ pairs,
          ¬(pr.1 ∉ (GcDhReScan g n pairs st).1.marked ∧
            pr.2 ∉ (GcDhReScan g n pairs st).1.marked)) ∧
      (GcDhUnpromotedHandlesExist
            (GcDhInitialScan g n pairs condemned max_gen st) = false ↔
        ∀ pr ∈ pairs,
          ¬(pr.1 ∉ (GcDhInitialScan g n pairs condemned max_gen st).marked ∧
            pr.2 ∉ (GcDhInitialScan g n pairs condemned max_gen st).marked)) := by
  have key : ∀ m : Finset Nat,
      (pairs.any (unresolvedPair m) = false ↔
        ∀ pr ∈ pairs, ¬(pr.1 ∉ m ∧ pr.2 ∉ m)) := by
    intro m
    rw [List.any_eq_false]
    constructor
    · intro h pr hpr
      have := h pr hpr
      simpa [unresolvedPair] using this
    · intro h pr hpr
      have := h pr hpr
      simpa [unresolvedPair] using this
  exact ⟨rfl, key _, key _⟩

/-- Witness for C2: the query is literally the context flag on a concrete
state. -/
theorem C2_unpromoted_handles_query_witness :
    GcDhUnpromotedHandlesExist ⟨∅, ⟨0, 0, true, false⟩⟩ = true :=
  (C2_unpromoted_handles_query (fun _ => []) 0 [] ⟨∅, ⟨0, 0, true, false⟩⟩
    0 0).1

/-- Claim C6: `GcWeakPtrScan` performs exactly two steps in order — first
the long-weak clearing pass (`Ref_CheckReachable`: every long-weak handle
in the condemned range with a dead referent is nulled), then, immediately
afterwards in the same call, the dependent-handle clearing pass
(`Ref_ScanDependentHandlesForClearing`: a secondary is cleared once its
primary is confirmed dead). -/
theorem C6_weak_scan_order (condemned : Nat) (isPromoted : Nat → Bool)
    (st : WeakScanState) :
    GcWeakPtrScan condemned isPromoted st =
        Ref_ScanDependentHandlesForClearing isPromoted
          (Ref_CheckReachable condemned isPromoted st) ∧
      (GcWeakPtrScan condemned isPromoted st).trace =
        st.trace ++ [WeakScanEvt.checkReachable,
          WeakScanEvt.depHandleClearing] ∧
      (GcWeakPtrScan condemned isPromoted st).longWeak =
        st.longWeak.map (clearWeakHandle condemned isPromoted) ∧
      (∀ (h : WeakHandle) (o : Nat), h.gen ≤ condemned →
        h.referent = some o → isPromoted o = false →
          clearWeakHandle condemned isPromoted h =
            { h with referent := none }) ∧
      ∀ pr ∈ (GcWeakPtrScan condemned isPromoted st).depPairs,
        primaryDead isPromoted pr = true → pr.secondary = none := by
  refine ⟨rfl, ?_, rfl, ?_, ?_⟩
  · simp [GcWeakPtrScan, Ref_ScanDependentHandlesForClearing,
      Ref_CheckReachable]
  · intro h o hgen href hdead
    simp [clearWeakHandle, hgen, href, hdead]
  · intro pr hpr hdead
    simp only [GcWeakPtrScan, Ref_ScanDependentHandlesForClearing,
      List.mem_map] at hpr
    obtain ⟨orig, _, horig⟩ := hpr
    by_cases hd : primaryDead isPromoted orig = true
    · rw [if_pos hd] at horig
      rw [← horig]
    · rw [if_neg hd] at horig
      rw [← horig] at hdead
      exact absurd hdead hd

/-- Witness for C6 on a concrete state: one dead long-weak handle in the
condemned range and one pair with a dead primary. -/
theorem C6_weak_scan_order_witness :
    (GcWeakPtrScan 1 (fun _ => false)
          ⟨[⟨0, some 5⟩], [⟨some 3, some 4⟩], []⟩).trace =
        ([] : List WeakScanEvt) ++ [WeakScanEvt.checkReachable,
          WeakScanEvt.depHandleClearing] ∧
      ∀ pr ∈ (GcWeakPtrScan 1 (fun _ => false)
          ⟨[⟨0, some 5⟩], [⟨some 3, some 4⟩], []⟩).depPairs,
        primaryDead (fun _ => false) pr = true → pr.secondary = none :=
  ⟨(C6_weak_scan_order 1 (fun _ => false)
      ⟨[⟨0, some 5⟩], [⟨some 3, some 4⟩], []⟩).2.1,
    (C6_weak_scan_order 1 (fun _ => false)
      ⟨[⟨0, some 5⟩], [⟨some 3, some 4⟩], []⟩).2.2.2.2⟩

/-- Claim C7: every reference visited by the sync-block cache weak scan is
set to null when its referent is reported not promoted and left unchanged
when it is promoted. -/
theorem C7_check_promoted (condemned max_gen : Int)
    (isPromoted : Option Nat → Bool) (cache : List (Option Nat)) (i : Nat) :
    (GcWeakPtrScanBySingleThread condemned max_gen isPromoted cache)[i]? =
        (cache[i]?).map (CheckPromoted isPromoted) ∧
      ∀ r : Option Nat,
        (isPromoted r = false → CheckPromoted isPromoted r = none) ∧
          (isPromoted r = true → CheckPromoted isPromoted r = r) := by
  refine ⟨?_, ?_⟩
  · simp [GcWeakPtrScanBySingleThread, SyncBlockCacheWeakPtrScan,
      List.getElem?_map]
  · intro r
    constructor <;> intro h <;> simp [CheckPromoted, h]

/-- Witness for C7 on a concrete two-element cache where object 5 is
promoted and object 6 is not. -/
theorem C7_check_promoted_witness :
    (GcWeakPtrScanBySingleThread 0 2 (fun r => r == some 5)
          [some 5, some 6])[0]? =
        (([some 5, some 6] : List (Option Nat))[0]?).map
          (CheckPromoted (fun r => r == some 5)) ∧
      ∀ r : Option Nat,
        ((r == some 5) = false →
            CheckPromoted (fun r => r == some 5) r = none) ∧
          ((r == some 5) = true →
            CheckPromoted (fun r => r == some 5) r = r) :=
  C7_check_promoted 0 2 (fun r => r == some 5) [some 5, some 6] 0

/-- Counterexample to claim C1 as stated: with roots = singleton 0, no
object-graph edges and the single dependent pair (primary 1, secondary 0),
the cycle promotes the secondary 0 (it is itself a root) although the
primary 1 is not transitively reachable — so "secondary promoted iff
primary transitively reachable" fails for this pair. -/
theorem C1_counterexample :
    ¬((0 ∈ (dhCycle (fun _ => []) 2 [(1, 0)] {0} 0 0).marked) ↔
      Reach {0} (fun _ => []) [(1, 0)] 1) := by
  intro h
  have h0 : 0 ∈ (dhCycle (fun _ => []) 2 [(1, 0)] {0} 0 0).marked := by
    decide
  have h1 := h.mp h0
  cases h1 with
  | root hx => simp at hx
  | edge _ hy => exact absurd hy (List.not_mem_nil _)
  | dep hpr _ => simp at hpr

/-- Claim C1 (amended): after one collection cycle — initial scan followed
by the re-scan loop run to convergence — the set of promoted objects is
exactly the set of transitively reachable ones (from the roots through
object-graph edges and the dependent-handle rule); in particular every
pair whose primary is promoted has its secondary promoted, so a pair's
secondary is unpromoted only if its primary is unreachable.  The
unqualified converse of the original claim fails when a secondary is
independently reachable while its primary is not (see the
counterexample). -/
theorem C1_dependent_promotion_fixed_point (g : Nat → List Nat) (n : Nat)
    (pairs : List (Nat × Nat)) (roots : Finset Nat)
    (condemned max_gen : Int) (hg : ∀ x y, y ∈ g x → y < n)
    (hroots : roots ⊆ Finset.range n) (hsec : ∀ pr ∈ pairs, pr.2 < n) :
    (∀ x, x ∈ (dhCycle g n pairs roots condemned max_gen).marked ↔
        Reach roots g pairs x) ∧
      ∀ pr ∈ pairs,
        pr.1 ∈ (dhCycle g n pairs roots condemned max_gen).marked →
          pr.2 ∈ (dhCycle g n pairs roots condemned max_gen).marked :=
  dhCycle_correct condemned max_gen hg hroots hsec

/-- Witness for C1 (amended) on the concrete chained instance: root 0,
edge 0 → 1, pair (1, 2); the cycle must promote 2. -/
theorem C1_dependent_promotion_fixed_point_witness :
    ((∀ x y : Nat, y ∈ (fun _ : Nat => ([] : List Nat)) x → y < 3) ∧
        ({0} : Finset Nat) ⊆ Finset.range 3 ∧
        ∀ pr ∈ [((0 : Nat), (1 : Nat))], pr.2 < 3) ∧
      (∀ x, x ∈ (dhCycle (fun _ => []) 3 [(0, 1)] {0} 0 3).marked ↔
          Reach {0} (fun _ => []) [(0, 1)] x) ∧
        ∀ pr ∈ [((0 : Nat), (1 : Nat))],
          pr.1 ∈ (dhCycle (fun _ => []) 3 [(0, 1)] {0} 0 3).marked →
            pr.2 ∈ (dhCycle (fun _ => []) 3 [(0, 1)] {0} 0 3).marked :=
  ⟨⟨fun x y h => absurd h (List.not_mem_nil y), by decide, by decide⟩,
    C1_dependent_promotion_fixed_point (fun _ => []) 3 [(0, 1)] {0} 0 3
      (fun x y h => absurd h (List.not_mem_nil y)) (by decide) (by decide)⟩

end GCScan
